import Mathlib

/-!
Verification of the integer-stream decompressor prototype.

This file gives a shallow embedding, in Lean, of the parts of the
repository that the checked properties talk about, and proves (or refutes)
each property against that embedding:

* `src/intcomp/AbbrevAssignWriter.cpp` — the greedy longest-match rewriter
  (ring buffer, count-trie walk, default-value coalescing);
* `src/interp/Interpreter.cpp` — `hasEnoughHeadroom`, the `OpStream` and
  `OpPeek` evaluation cases, the opcode assembly of `readOpcode`, and the
  block back-patch step of `decompressBlock`;
* `src/intcomp/IntCompress.h` — `errorsFound` and `setMinimizeBlockSize`;
* `src/interp/IntReader.cpp` — `readHeaderValue`.

Machine integers (`decode::IntType` = `uint64_t`, `size_t`) are modelled as
natural numbers, with explicit reduction modulo `2 ^ 64` where the C++
arithmetic can wrap.  `fatal` paths and undefined behaviour are modelled by
`Option`, with `none` for "no defined result".
-/

namespace DecompProto

/-- Machine integer values carried on the integer streams
(`decode::IntType`, a 64-bit unsigned integer).  The rewriter only moves
values around — it never computes with them — so values are carried as
plain natural numbers. -/
abbrev IntType := Nat

/-! ## AbbrevAssignWriter (src/intcomp/AbbrevAssignWriter.cpp)

The count-trie of section 3.4 is abstracted by which nodes currently carry
an `AbbrevIndex`: a trie node is identified with the path of integer values
leading to it from `Root`, and the node's `PathLength` is the length of
that path.  `lookup(parent, v)` creates missing children, and a freshly
created node has no abbreviation index, so the trie walk inside
`writeFromBuffer` never changes which paths carry an index. -/

/-- Which trie paths currently carry an `AbbrevIndex`.  `A p = true` says
the node reached from `Root` along the values `p` has an abbreviation
assigned. -/
def Assignment : Type := List IntType → Bool

/-- One group emitted by the rewriter, abstracting what
`forwardAbbrevValue` / `flushDefaultValues` write through the inner
writer.  An abbreviation group is identified by the path of the trie node
whose index is forwarded. -/
inductive Group where
  | abbrevGroup (path : List IntType) : Group
  | defaultSingle (v : IntType) : Group
  | defaultMultiple (vs : List IntType) : Group
  | blockEnterGroup : Group
  | blockExitGroup : Group

/-- The sequence of input values a group stands for: an abbreviation group
denotes its trie path's values, a `DefaultSingle` group its one value, a
`DefaultMultiple` group its run of values; the block singletons denote
no integer values. -/
def Group.denotes : Group → List IntType
  | .abbrevGroup path => path
  | .defaultSingle v => [v]
  | .defaultMultiple vs => vs
  | .blockEnterGroup => []
  | .blockExitGroup => []

/-- The mutable state of `AbbrevAssignWriter`: the ring buffer of pending
values (front at the head of the list), the queued default values, and the
groups emitted so far. -/
structure AWState where
  Buffer : List IntType
  DefaultValues : List IntType
  Groups : List Group

/-- `AbbrevAssignWriter::flushDefaultValues` (lines 192-208), abstracted to
the groups it emits: nothing when no default values are queued, a
`DefaultSingle` group for a single queued value, and a `DefaultMultiple`
group for two or more.  The caller clears the queue. -/
def flushDefaultValues : List IntType → List Group
  | [] => []
  | [v] => [Group.defaultSingle v]
  | v₁ :: v₂ :: rest => [Group.defaultMultiple (v₁ :: v₂ :: rest)]

/-- The scan loop of `AbbrevAssignWriter::writeFromBuffer` (lines 137-143):
`Nd` walks from `Root` through the buffered values in order, and `Max`
remembers the deepest visited node that has an abbreviation index.  A node
is represented by its path, so only `Max`'s path length is tracked, in
`best` (`0` standing for a null `Max`); `done` is the path walked so far
and `rest` the buffered values still to walk. -/
def scanGo (A : Assignment) (done rest : List IntType) (best : Nat) : Nat :=
  match rest with
  | [] => best
  | v :: rest' =>
      scanGo A (done ++ [v]) rest'
        (if A (done ++ [v]) then (done ++ [v]).length else best)

/-- `Max.PathLength` as computed by the scan loop of `writeFromBuffer`, or
`0` when no visited node has an abbreviation index. -/
def findMaxLen (A : Assignment) (buf : List IntType) : Nat :=
  scanGo A [] buf 0

/-- `AbbrevAssignWriter::writeFromBuffer` (lines 130-152).  On an empty
buffer it returns at once.  Otherwise, when the scan found no `Max`, it
queues `Buffer[0]` as a default value (`forwardOtherValue`) and pops one
value; when `Max` exists it forwards `Max`'s abbreviation —
`forwardAbbrevValue` (lines 36-39) first flushes the queued default values
and then writes the index — and pops `Max.PathLength` values
(`popValuesFromBuffer`, which can pop at most the whole buffer). -/
def writeFromBuffer (A : Assignment) (st : AWState) : AWState :=
  if st.Buffer = [] then st
  else
    let m := findMaxLen A st.Buffer
    if m = 0 then
      { st with
        DefaultValues := st.DefaultValues ++ [st.Buffer.headD 0],
        Buffer := st.Buffer.drop 1 }
    else
      { Buffer := st.Buffer.drop m,
        DefaultValues := [],
        Groups := st.Groups ++ flushDefaultValues st.DefaultValues
                    ++ [Group.abbrevGroup (st.Buffer.take m)] }

/-- `AbbrevAssignWriter::bufferValue` (lines 122-128): push the value onto
the ring buffer — whose capacity `cap` is the `LengthLimit` of the
configuration — and, when the push fills the buffer, flush one step. -/
def bufferValue (A : Assignment) (cap : Nat) (st : AWState) (v : IntType) : AWState :=
  let st' : AWState := { st with Buffer := st.Buffer ++ [v] }
  if st'.Buffer.length = cap then writeFromBuffer A st' else st'

/-- `AbbrevAssignWriter::writeUntilBufferEmpty` (lines 154-157): flush one
step at a time until the ring buffer is empty.  The recursion terminates
because every flush step on a non-empty buffer pops at least one value
(`1` when no `Max` was found, `Max.PathLength ≥ 1` otherwise). -/
def writeUntilBufferEmpty (A : Assignment) (st : AWState) : AWState :=
  if h : st.Buffer = [] then st
  else writeUntilBufferEmpty A (writeFromBuffer A st)
termination_by st.Buffer.length
decreasing_by
  have hlen : 0 < st.Buffer.length := List.length_pos.mpr h
  unfold writeFromBuffer
  by_cases hm : findMaxLen A st.Buffer = 0
  · simp only [h, if_false, hm, if_true, List.length_drop]
    omega
  · simp only [h, if_false, hm, List.length_drop]
    omega

/-- `AbbrevAssignWriter::writeFreezeEof` (lines 89-93): drain the buffer,
flush the queued default values, and propagate the freeze to the inner
writer (the propagation does not touch the modelled state). -/
def writeFreezeEof (A : Assignment) (st : AWState) : AWState :=
  let st1 := writeUntilBufferEmpty A st
  { st1 with
    Groups := st1.Groups ++ flushDefaultValues st1.DefaultValues,
    DefaultValues := [] }

/-- One call to a public write method of `AbbrevAssignWriter` together with
the integer value it receives (lines 54-98).  Every one of these methods
has the body `bufferValue(Value); return true;`. -/
inductive WriteCall where
  | wUint8 (v : IntType) : WriteCall
  | wUint32 (v : IntType) : WriteCall
  | wUint64 (v : IntType) : WriteCall
  | wVarint32 (v : IntType) : WriteCall
  | wVarint64 (v : IntType) : WriteCall
  | wVaruint32 (v : IntType) : WriteCall
  | wVaruint64 (v : IntType) : WriteCall
  | wValue (v : IntType) : WriteCall

/-- The value a write call feeds to the rewriter. -/
def WriteCall.value : WriteCall → IntType
  | .wUint8 v => v
  | .wUint32 v => v
  | .wUint64 v => v
  | .wVarint32 v => v
  | .wVarint64 v => v
  | .wVaruint32 v => v
  | .wVaruint64 v => v
  | .wValue v => v

/-- Dispatch of one public write call: `writeUint8` … `writeVaruint64` and
`writeValue` all buffer their value unchanged. -/
def doWriteCall (A : Assignment) (cap : Nat) (st : AWState) : WriteCall → AWState
  | .wUint8 v => bufferValue A cap st v
  | .wUint32 v => bufferValue A cap st v
  | .wUint64 v => bufferValue A cap st v
  | .wVarint32 v => bufferValue A cap st v
  | .wVarint64 v => bufferValue A cap st v
  | .wVaruint32 v => bufferValue A cap st v
  | .wVaruint64 v => bufferValue A cap st v
  | .wValue v => bufferValue A cap st v

/-- A sequence of public write calls, applied in order. -/
def runWrites (A : Assignment) (cap : Nat) (st : AWState)
    (calls : List WriteCall) : AWState :=
  calls.foldl (doWriteCall A cap) st

/-- The rewriter's initial state: empty ring buffer, no queued defaults,
nothing emitted. -/
def initAWState : AWState := { Buffer := [], DefaultValues := [], Groups := [] }

/-- The two predefined block symbols handled by `writeAction`. -/
inductive AWAction where
  | blockEnter : AWAction
  | blockExit : AWAction

/-- `AbbrevAssignWriter::writeAction` (lines 100-120) for the `Block_enter`
and `Block_exit` predefined symbols: drain the buffer, flush the queued
default values, then forward the corresponding singleton's abbreviation
index (`forwardAbbrevValue` flushes the — now empty — default queue once
more before writing). -/
def writeAction (A : Assignment) (st : AWState) (act : AWAction) : AWState :=
  let st1 := writeUntilBufferEmpty A st
  let st2 : AWState :=
    { st1 with
      Groups := st1.Groups ++ flushDefaultValues st1.DefaultValues,
      DefaultValues := [] }
  { st2 with
    Groups := st2.Groups ++ flushDefaultValues st2.DefaultValues ++
      [match act with
       | .blockEnter => Group.blockEnterGroup
       | .blockExit => Group.blockExitGroup] }

/-- All input values a rewriter state accounts for: the values denoted by
the groups emitted so far, then the queued default values, then the values
still sitting in the ring buffer. -/
def covered (st : AWState) : List IntType :=
  (st.Groups.map Group.denotes).flatten ++ st.DefaultValues ++ st.Buffer

/-- A concrete abbreviation assignment used to instantiate the general
theorems: exactly the path `[7, 7]` carries an abbreviation index. -/
def sampleAssignment : Assignment := fun p => decide (p = [7, 7])

/-- A concrete rewriter state with three buffered values. -/
def sampleBufState : AWState :=
  { Buffer := [7, 7, 7], DefaultValues := [], Groups := [] }

/-! ## Interpreter (src/interp/Interpreter.cpp) -/

/-- Headroom constant from Interpreter.cpp line 63. -/
def kResumeHeadroom : Nat := 100

/-- Modulus of `size_t` arithmetic on the 64-bit hosts the code targets:
byte addresses are `size_t` values and addition wraps modulo `2 ^ 64`. -/
def sizeTMod : Nat := 2 ^ 64

/-- `Interpreter::hasEnoughHeadroom` (Interpreter.cpp lines 122-126):
the body returns `ReadPos.isEofFrozen() || (ReadPos.getCurByteAddress() +
kResumeHeadroom <= ReadPos.getCurByteAddress())` — both sides of the
comparison read the same cursor address, so the amount of buffered input
never enters the result. -/
def hasEnoughHeadroom (isEofFrozen : Bool) (curByteAddress : Nat) : Bool :=
  isEofFrozen ||
    decide ((curByteAddress + kResumeHeadroom) % sizeTMod ≤ curByteAddress)

/-- Modelled from the spec: the headroom predicate of sections 4.3.4 and 5
of the design — true when the read position is EOF-frozen or at least
`kResumeHeadroom` bytes of buffered input lie at or beyond the current
read byte address (`bufferedEnd` is the address one past the last buffered
byte). -/
def specHasEnoughHeadroom (isEofFrozen : Bool)
    (curByteAddress bufferedEnd : Nat) : Bool :=
  isEofFrozen || decide (curByteAddress + kResumeHeadroom ≤ bufferedEnd)

/-- The dynamic class of a stream implementation object, as tested by the
`isa<...>` checks in the `OpStream` case.  `ByteReadStream` and
`ByteWriteStream` are distinct classes: a writer object is never a
`ByteReadStream`. -/
inductive StreamClassKind where
  | byteReadStream : StreamClassKind
  | byteWriteStream : StreamClassKind
  | otherStream : StreamClassKind

/-- `isa<ByteReadStream>(...)`. -/
def isaByteReadStream : StreamClassKind → Bool
  | .byteReadStream => true
  | _ => false

/-- `isa<ByteWriteStream>(...)`. -/
def isaByteWriteStream : StreamClassKind → Bool
  | .byteWriteStream => true
  | _ => false

/-- `decode::StreamKind` of a `Stream` node. -/
inductive StreamKind where
  | input : StreamKind
  | output : StreamKind

/-- `decode::StreamType` of a `Stream` node. -/
inductive StreamType where
  | byte : StreamType
  | bit : StreamType
  | int : StreamType
  | ast : StreamType

/-- The `StreamKind::Input` arm of the `OpStream` case of
`Interpreter::eval` (lines 248-259): for `StreamType::Byte` the return
value is set to `int(isa<ByteReadStream>(Reader.get()))`; the other stream
types are fatal (`none`). -/
def evalStreamInputArm (reader : StreamClassKind) : StreamType → Option Nat
  | .byte => some (if isaByteReadStream reader then 1 else 0)
  | _ => none

/-- The `StreamKind::Output` arm (lines 260-271): for `StreamType::Byte`
the return value is set to `int(isa<ByteReadStream>(Writer.get()))` — the
source tests `ByteReadStream`, not `ByteWriteStream`, against the writer —
and the other stream types are fatal. -/
def evalStreamOutputArm (writer : StreamClassKind) : StreamType → Option Nat
  | .byte => some (if isaByteReadStream writer then 1 else 0)
  | _ => none

/-- `Interpreter::eval`, `OpStream` case (lines 245-274).  There is no
`break` between `case StreamKind::Input:` and `case StreamKind::Output:`,
so after the input arm runs, control falls through into the output arm and
its assignment overwrites `ReturnValue`. -/
def evalOpStream (reader writer : StreamClassKind) (kind : StreamKind)
    (type : StreamType) : Option Nat :=
  match kind with
  | .input => (evalStreamInputArm reader type).bind
      (fun _ => evalStreamOutputArm writer type)
  | .output => evalStreamOutputArm writer type

/-- The observable read state around a `Peek`: the read cursor position and
the `LastReadValue` register. -/
structure RdState where
  pos : Nat
  lastReadValue : Nat

/-- The `OpPeek` case of `Interpreter::runMethods` (lines 509-516).  The
nested read of the kid is abstracted as `probe`, mapping a cursor position
to the value it reads and the cursor position after the read.  The case
copies the cursor (`ReadCursor InitialPos(ReadPos)`), performs the nested
read — which advances the cursor and latches the value into
`LastReadValue` — swaps the cursor back, and pushes `LastReadValue` as the
result. -/
def opPeekStep (probe : Nat → Nat × Nat) (st : RdState) : Nat × RdState :=
  let initialPos := st.pos
  let afterRead : RdState :=
    { pos := (probe st.pos).2, lastReadValue := (probe st.pos).1 }
  let restored : RdState := { afterRead with pos := initialPos }
  (restored.lastReadValue, restored)

/-- The selector-node shapes distinguished by
`Interpreter::readOpcodeSelector` (lines 368-397); `Eval` delegates to the
called symbol's `Define` definition, and any other node kind yields
bitsize 0 ("no continuation expected"). -/
inductive SelectorNode where
  | uint8NoArgs : SelectorNode
  | uint8OneArg (n : Nat) : SelectorNode
  | uint32NoArgs : SelectorNode
  | uint32OneArg (n : Nat) : SelectorNode
  | uint64NoArgs : SelectorNode
  | uint64OneArg (n : Nat) : SelectorNode
  | evalSym (defn : SelectorNode) : SelectorNode
  | otherNode : SelectorNode

/-- The bitsize `readOpcodeSelector` returns for each selector node; in
every arm the selector's value is also read from the stream (abstracted as
the separate argument `c` of `readOpcodeAssemble`). -/
def readOpcodeSelectorSize : SelectorNode → Nat
  | .uint8NoArgs => 8
  | .uint8OneArg n => n
  | .uint32NoArgs => 32
  | .uint32OneArg n => n
  | .uint64NoArgs => 64
  | .uint64OneArg n => n
  | .evalSym d => readOpcodeSelectorSize d
  | .otherNode => 0

/-- Modulus of `decode::IntType` (= `uint64_t`) arithmetic: the shift in
`readOpcode` wraps modulo `2 ^ 64`. -/
def intTypeMod : Nat := 2 ^ 64

/-- The assembly step of `Interpreter::readOpcode`, `OpOpcode` case
(lines 408-417): read the selector (value `c`, bitsize from the selector
node); when a continuation is expected (`NumOpcodes > 0`), a bitsize
outside `[1, 63]` is fatal (`none`), and otherwise
`LastReadValue |= PrefixValue << SelectorSize`. -/
def readOpcodeAssemble (sel : SelectorNode) (c PrefixValue NumOpcodes : Nat) :
    Option Nat :=
  let SelectorSize := readOpcodeSelectorSize sel
  if 0 < NumOpcodes then
    if SelectorSize < 1 ∨ 64 ≤ SelectorSize then none
    else some (c ||| (PrefixValue <<< SelectorSize) % intTypeMod)
  else some c

/-! ## IntCompressor (src/intcomp/IntCompress.h) -/

/-- The configuration state of `IntCompressor` (IntCompress.h lines
80-93): cutoffs and the length limit.  The class declares no member for a
minimize-block-size option. -/
structure CompressorOptions where
  CountCutoff : Nat
  WeightCutoff : Nat
  LengthLimit : Nat

/-- `IntCompressor::setMinimizeBlockSize` (IntCompress.h line 74): the
body is `{ (void)NewValue; }` — the argument is discarded and no state
changes. -/
def setMinimizeBlockSize (c : CompressorOptions) (NewValue : Bool) :
    CompressorOptions :=
  c

/-- `Interpreter::MinimizeBlockSize` is initialised to `false` in the
interpreter constructor (Interpreter.cpp line 92), and nothing in the
repository assigns it afterwards. -/
def interpreterMinimizeBlockSizeInit : Bool := false

/-- Modelled from the spec: byte width of the fixed `Uint32` block-size
reservation written by `writeFixedBlockSize` (section 6: a framed block
carries a "Varuint32 (minimised) or Uint32 (fixed) byte length"; the
stream-layer writer itself is not under src/). -/
def fixedBlockSizeWidth : Nat := 4

/-- Modelled from the spec: byte width of the minimised `Varuint32`
encoding written by `writeVarintBlockSize` (seven value bits per byte,
at most five bytes for a 32-bit size; the stream-layer writer itself is
not under src/). -/
def varintBlockSizeWidth (n : Nat) : Nat :=
  if n < 2 ^ 7 then 1
  else if n < 2 ^ 14 then 2
  else if n < 2 ^ 21 then 3
  else if n < 2 ^ 28 then 4
  else 5

/-- Which back-patch operation `decompressBlock` uses on the reserved
block-size field. -/
inductive BlockPatch where
  | fixedPatch : BlockPatch
  | varintPatch : BlockPatch
deriving DecidableEq

/-- The back-patch step of `Interpreter::decompressBlock` (Interpreter.cpp
lines 836-850), as the patch operation used and whether `moveBlock` runs:
with `MinimizeBlockSize` false the discovered size is written back with
`writeFixedBlockSize`; otherwise `writeVarintBlockSize` is used and, when
`Diff = SizeAfterSizeWrite - SizeAfterBackPatch` (the reservation width
minus the varint width) is nonzero, the block's bytes are shifted left
with `moveBlock`. -/
def decompressBlockPatch (MinimizeBlockSize : Bool) (NewSize : Nat) :
    BlockPatch × Bool :=
  if !MinimizeBlockSize then (BlockPatch.fixedPatch, false)
  else
    (BlockPatch.varintPatch,
      decide (fixedBlockSizeWidth - varintBlockSizeWidth NewSize ≠ 0))

/-- `IntCompressor::errorsFound` (IntCompress.h line 61): the body is
`return Input == nullptr && Input->errorsFound();`.  The `Input` member is
modelled as `none` for a null pointer and `some e` for a reader whose
`errorsFound()` returns `e`.  `&&` short-circuits: with a non-null
`Input`, the left operand `Input == nullptr` is false and the function
returns false without consulting the reader; with a null `Input`, the
right operand dereferences the null pointer, so there is no defined
result (`none`). -/
def errorsFound (Input : Option Bool) : Option Bool :=
  match Input with
  | none => none
  | some _ => some false

/-- Modelled from the spec: recoverable errors of a run surface as a
boolean at the top-level entry point — true exactly when the input stream
reader exists and has recorded errors (section 7, Propagation). -/
def specErrorsFound : Option Bool → Bool
  | none => false
  | some e => e

/-! ## IntReader (src/interp/IntReader.cpp) -/

/-- `decode::IntTypeFormat`: the closed set of 7 wire encodings
(section 3.2). -/
inductive IntTypeFormat where
  | Uint8 : IntTypeFormat
  | Uint32 : IntTypeFormat
  | Uint64 : IntTypeFormat
  | Varint32 : IntTypeFormat
  | Varint64 : IntTypeFormat
  | Varuint32 : IntTypeFormat
  | Varuint64 : IntTypeFormat
deriving DecidableEq

/-- The header-reading state of `IntReader`: the input stream's header
vector of (value, format) pairs and the reader's `HeaderIndex`. -/
structure IntReaderHeaderState where
  header : List (Nat × IntTypeFormat)
  HeaderIndex : Nat

/-- `IntReader::readHeaderValue` (IntReader.cpp lines 121-131).  `Value`
defaults to 0 for failure; when `HeaderIndex` is past the header the call
fails with the index unchanged; otherwise the entry at `HeaderIndex` is
fetched and the index incremented (`Header[HeaderIndex++]`), and the call
fails on a format mismatch or returns the entry's value on a match.  The
result is (returned bool, `Value`, state after the call). -/
def readHeaderValue (st : IntReaderHeaderState) (Format : IntTypeFormat) :
    Bool × Nat × IntReaderHeaderState :=
  if st.HeaderIndex ≥ st.header.length then (false, 0, st)
  else if (st.header.getD st.HeaderIndex (0, IntTypeFormat.Uint8)).2 ≠ Format then
    (false, 0, { st with HeaderIndex := st.HeaderIndex + 1 })
  else
    (true, (st.header.getD st.HeaderIndex (0, IntTypeFormat.Uint8)).1,
      { st with HeaderIndex := st.HeaderIndex + 1 })

/-! ## Theorems -/

/-- Every flush step on a non-empty buffer removes at least one buffered
value: `writeFromBuffer` pops `1` when no `Max` was found and
`Max.PathLength ≥ 1` otherwise. -/
theorem writeFromBuffer_shrinks (A : Assignment) (st : AWState)
    (h : st.Buffer ≠ []) :
    (writeFromBuffer A st).Buffer.length < st.Buffer.length := by
  have hlen : 0 < st.Buffer.length := List.length_pos.mpr h
  unfold writeFromBuffer
  by_cases hm : findMaxLen A st.Buffer = 0
  · simp only [h, if_false, hm, if_true, List.length_drop]
    omega
  · simp only [h, if_false, hm, List.length_drop]
    omega

theorem flatten_flushDefaultValues (D : List IntType) :
    ((flushDefaultValues D).map Group.denotes).flatten = D := by
  match D with
  | [] => rfl
  | [v] => rfl
  | v₁ :: v₂ :: rest => simp [flushDefaultValues, Group.denotes]

theorem covered_writeFromBuffer (A : Assignment) (st : AWState) :
    covered (writeFromBuffer A st) = covered st := by
  unfold writeFromBuffer
  by_cases h : st.Buffer = []
  · simp [h]
  · by_cases hm : findMaxLen A st.Buffer = 0
    · have hb' : st.Buffer.headD 0 :: st.Buffer.drop 1 = st.Buffer := by
        cases hbuf : st.Buffer with
        | nil => exact absurd hbuf h
        | cons b rest => simp
      simp [h, hm, covered, List.append_assoc]
      simpa using hb'
    · simp [h, hm, covered, List.map_append, List.flatten_append,
        flatten_flushDefaultValues, Group.denotes, List.append_assoc,
        List.take_append_drop]

theorem covered_bufferValue (A : Assignment) (cap : Nat) (st : AWState)
    (v : IntType) :
    covered (bufferValue A cap st v) = covered st ++ [v] := by
  simp only [bufferValue]
  by_cases hc : (st.Buffer ++ [v]).length = cap
  · rw [if_pos hc, covered_writeFromBuffer]
    simp [covered, List.append_assoc]
  · rw [if_neg hc]
    simp [covered, List.append_assoc]

theorem writeUntilBufferEmpty_spec (A : Assignment) :
    ∀ (n : Nat) (st : AWState), st.Buffer.length ≤ n →
      (writeUntilBufferEmpty A st).Buffer = [] ∧
      covered (writeUntilBufferEmpty A st) = covered st := by
  intro n
  induction n with
  | zero =>
      intro st hst
      have hb : st.Buffer = [] :=
        List.eq_nil_of_length_eq_zero (Nat.le_zero.mp hst)
      rw [writeUntilBufferEmpty, dif_pos hb]
      exact ⟨hb, rfl⟩
  | succ n ih =>
      intro st hst
      by_cases hb : st.Buffer = []
      · rw [writeUntilBufferEmpty, dif_pos hb]
        exact ⟨hb, rfl⟩
      · rw [writeUntilBufferEmpty, dif_neg hb]
        have hlt := writeFromBuffer_shrinks A st hb
        have hrec := ih (writeFromBuffer A st) (by omega)
        exact ⟨hrec.1, hrec.2.trans (covered_writeFromBuffer A st)⟩

theorem writeUntilBufferEmpty_buffer (A : Assignment) (st : AWState) :
    (writeUntilBufferEmpty A st).Buffer = [] :=
  (writeUntilBufferEmpty_spec A st.Buffer.length st le_rfl).1

theorem covered_writeUntilBufferEmpty (A : Assignment) (st : AWState) :
    covered (writeUntilBufferEmpty A st) = covered st :=
  (writeUntilBufferEmpty_spec A st.Buffer.length st le_rfl).2

theorem covered_doWriteCall (A : Assignment) (cap : Nat) (st : AWState)
    (c : WriteCall) :
    covered (doWriteCall A cap st c) = covered st ++ [c.value] := by
  cases c <;> simp [doWriteCall, WriteCall.value, covered_bufferValue]

theorem covered_runWrites (A : Assignment) (cap : Nat) :
    ∀ (calls : List WriteCall) (st : AWState),
      covered (runWrites A cap st calls) = covered st ++ calls.map WriteCall.value := by
  intro calls
  induction calls with
  | nil => intro st; simp [runWrites]
  | cons c rest ih =>
      intro st
      have hstep : runWrites A cap st (c :: rest) =
          runWrites A cap (doWriteCall A cap st c) rest := rfl
      rw [hstep, ih, covered_doWriteCall]
      simp [List.append_assoc]

/-- Characterisation of the scan loop: starting from a walked path `done`
and a best length `best ≤ done.length`, the loop result is at least
`best`; it is either `best` itself or the length of a longer prefix of the
whole buffer whose path carries an abbreviation; and every prefix longer
than the result (and than `done`) carries none. -/
theorem scanGo_spec (A : Assignment) :
    ∀ (rest done : List IntType) (best : Nat), best ≤ done.length →
      best ≤ scanGo A done rest best ∧
      (scanGo A done rest best = best ∨
        (done.length < scanGo A done rest best ∧
         scanGo A done rest best ≤ (done ++ rest).length ∧
         A ((done ++ rest).take (scanGo A done rest best)) = true)) ∧
      (∀ d, done.length < d → d ≤ (done ++ rest).length →
        scanGo A done rest best < d → A ((done ++ rest).take d) = false) := by
  intro rest
  induction rest with
  | nil =>
      intro done best hb
      refine ⟨le_rfl, Or.inl rfl, ?_⟩
      intro d hd1 hd2 _
      rw [List.append_nil] at hd2
      exact absurd hd1 (by omega)
  | cons v rest' ih =>
      intro done best hb
      have hbuf : done ++ v :: rest' = (done ++ [v]) ++ rest' := by simp
      have hlen1 : (done ++ [v]).length = done.length + 1 := by simp
      have hlen2 : ((done ++ [v]) ++ rest').length =
          done.length + 1 + rest'.length := by
        simp
        omega
      have htake : ((done ++ [v]) ++ rest').take (done.length + 1) =
          done ++ [v] := List.take_left' hlen1
      rw [hbuf]
      by_cases hA : A (done ++ [v]) = true
      · have hunf : scanGo A done (v :: rest') best =
            scanGo A (done ++ [v]) rest' ((done ++ [v]).length) := by
          simp only [scanGo, if_pos hA]
        obtain ⟨K0, K1, K2⟩ := ih (done ++ [v]) ((done ++ [v]).length) le_rfl
        rw [hunf]
        refine ⟨by omega, ?_, ?_⟩
        · rcases K1 with h1 | ⟨h1, h2, h3⟩
          · refine Or.inr ⟨by omega, by omega, ?_⟩
            rw [h1, List.take_left]
            exact hA
          · exact Or.inr ⟨by omega, h2, h3⟩
        · intro d hd1 hd2 hd3
          by_cases hd : d = done.length + 1
          · exact absurd hd3 (by omega)
          · exact K2 d (by omega) hd2 hd3
      · have hAf : A (done ++ [v]) = false := by
          simpa using hA
        have hunf : scanGo A done (v :: rest') best =
            scanGo A (done ++ [v]) rest' best := by
          simp only [scanGo, if_neg hA]
        obtain ⟨K0, K1, K2⟩ := ih (done ++ [v]) best (by omega)
        rw [hunf]
        refine ⟨K0, ?_, ?_⟩
        · rcases K1 with h1 | ⟨h1, h2, h3⟩
          · exact Or.inl h1
          · exact Or.inr ⟨by omega, h2, h3⟩
        · intro d hd1 hd2 hd3
          by_cases hd : d = done.length + 1
          · rw [hd, htake]
            exact hAf
          · exact K2 d (by omega) hd2 hd3

/-- `Max.PathLength` never exceeds the number of buffered values. -/
theorem findMaxLen_le (A : Assignment) (buf : List IntType) :
    findMaxLen A buf ≤ buf.length := by
  have h := (scanGo_spec A buf [] 0 (by simp)).2.1
  rcases h with h0 | ⟨_, hle, _⟩
  · rw [findMaxLen, h0]
    exact Nat.zero_le _
  · simpa [findMaxLen] using hle

/-- Longest match: no prefix of the buffer longer than `Max.PathLength`
carries an abbreviation index. -/
theorem findMaxLen_maximal (A : Assignment) (buf : List IntType) (d : Nat)
    (hd1 : findMaxLen A buf < d) (hd2 : d ≤ buf.length) :
    A (buf.take d) = false := by
  have h := (scanGo_spec A buf [] 0 (by simp)).2.2
  have hres := h d (by simp; omega) (by simpa using hd2)
    (by simpa [findMaxLen] using hd1)
  simpa using hres

/-- When the scan found a `Max`, the matched prefix of the buffer carries
an abbreviation index and has positive length. -/
theorem findMaxLen_matches (A : Assignment) (buf : List IntType)
    (h : findMaxLen A buf ≠ 0) :
    A (buf.take (findMaxLen A buf)) = true ∧ 0 < findMaxLen A buf := by
  have hh := (scanGo_spec A buf [] 0 (by simp)).2.1
  rcases hh with h0 | ⟨h1, _, h3⟩
  · exact absurd h0 (by simpa [findMaxLen] using h)
  · exact ⟨by simpa [findMaxLen] using h3, by simpa [findMaxLen] using h1⟩

/-- C1 (Rewriter coverage): for every sequence of integer values fed to
`AbbrevAssignWriter` through its public write methods
(`writeUint8`/…/`writeVaruint64`/`writeValue`) and terminated by
`writeFreezeEof`, the concatenation, in emission order, of the value
sequences denoted by the emitted groups equals the input sequence — so
each input value lands in exactly one group — and after `writeFreezeEof`
both the ring buffer and the queued-default list are empty.  This holds
for every abbreviation assignment and every ring-buffer capacity. -/
theorem abbrevAssignWriter_rewriter_coverage (A : Assignment) (cap : Nat)
    (calls : List WriteCall) :
    (((writeFreezeEof A (runWrites A cap initAWState calls)).Groups.map
        Group.denotes).flatten = calls.map WriteCall.value) ∧
    (writeFreezeEof A (runWrites A cap initAWState calls)).Buffer = [] ∧
    (writeFreezeEof A (runWrites A cap initAWState calls)).DefaultValues = [] := by
  have hcov : covered (runWrites A cap initAWState calls) =
      calls.map WriteCall.value := by
    rw [covered_runWrites]
    simp [covered, initAWState]
  have hbuf : (writeUntilBufferEmpty A (runWrites A cap initAWState calls)).Buffer
      = [] := writeUntilBufferEmpty_buffer A _
  have hc : covered (writeUntilBufferEmpty A (runWrites A cap initAWState calls))
      = calls.map WriteCall.value :=
    (covered_writeUntilBufferEmpty A _).trans hcov
  refine ⟨?_, ?_, ?_⟩
  · show (((writeUntilBufferEmpty A (runWrites A cap initAWState calls)).Groups ++
      flushDefaultValues
        (writeUntilBufferEmpty A (runWrites A cap initAWState calls)).DefaultValues).map
          Group.denotes).flatten = calls.map WriteCall.value
    rw [List.map_append, List.flatten_append, flatten_flushDefaultValues]
    unfold covered at hc
    rw [hbuf, List.append_nil] at hc
    exact hc
  · show (writeUntilBufferEmpty A (runWrites A cap initAWState calls)).Buffer = []
    exact hbuf
  · rfl

/-- C2 (Greedy longest match): on a non-empty buffer, `writeFromBuffer`
walks the count-trie from `Root` along the buffered values and takes as
`Max` the deepest visited node holding an abbreviation index; `m` below is
`Max.PathLength` (`0` for no `Max`), and no trie path with an abbreviation
index longer than `m` matches the front of the buffer.  When no `Max`
exists, `Buffer[0]` is queued as a default value and exactly one value is
popped; otherwise `Max`'s abbreviation group is emitted after the queued
defaults are flushed and exactly `Max.PathLength` values are popped. -/
theorem abbrevAssignWriter_greedy_longest_match (A : Assignment)
    (st : AWState) (h : st.Buffer ≠ []) :
    ∃ m, m ≤ st.Buffer.length ∧
      (∀ d, m < d → d ≤ st.Buffer.length → A (st.Buffer.take d) = false) ∧
      ((m = 0 ∧ writeFromBuffer A st =
          { st with
            DefaultValues := st.DefaultValues ++ [st.Buffer.headD 0],
            Buffer := st.Buffer.drop 1 }) ∨
       (1 ≤ m ∧ A (st.Buffer.take m) = true ∧ writeFromBuffer A st =
          { Buffer := st.Buffer.drop m,
            DefaultValues := [],
            Groups := st.Groups ++ flushDefaultValues st.DefaultValues
                        ++ [Group.abbrevGroup (st.Buffer.take m)] })) := by
  refine ⟨findMaxLen A st.Buffer, findMaxLen_le A st.Buffer, ?_, ?_⟩
  · intro d hd1 hd2
    exact findMaxLen_maximal A st.Buffer d hd1 hd2
  · by_cases hm : findMaxLen A st.Buffer = 0
    · left
      refine ⟨hm, ?_⟩
      simp [writeFromBuffer, h, hm]
    · right
      have hmm := findMaxLen_matches A st.Buffer hm
      refine ⟨hmm.2, hmm.1, ?_⟩
      simp [writeFromBuffer, h, hm]

/-- Witness for the greedy longest-match theorem at a concrete input: the
assignment holding only the path `[7, 7]`, on the buffer `[7, 7, 7]`. -/
theorem abbrevAssignWriter_greedy_longest_match_witness :
    sampleBufState.Buffer ≠ [] ∧
    (∃ m, m ≤ sampleBufState.Buffer.length ∧
      (∀ d, m < d → d ≤ sampleBufState.Buffer.length →
        sampleAssignment (sampleBufState.Buffer.take d) = false) ∧
      ((m = 0 ∧ writeFromBuffer sampleAssignment sampleBufState =
          { sampleBufState with
            DefaultValues := sampleBufState.DefaultValues ++
              [sampleBufState.Buffer.headD 0],
            Buffer := sampleBufState.Buffer.drop 1 }) ∨
       (1 ≤ m ∧ sampleAssignment (sampleBufState.Buffer.take m) = true ∧
        writeFromBuffer sampleAssignment sampleBufState =
          { Buffer := sampleBufState.Buffer.drop m,
            DefaultValues := [],
            Groups := sampleBufState.Groups ++
              flushDefaultValues sampleBufState.DefaultValues
                ++ [Group.abbrevGroup (sampleBufState.Buffer.take m)] }))) :=
  ⟨by decide,
   abbrevAssignWriter_greedy_longest_match sampleAssignment sampleBufState
     (by decide)⟩

/-- C9 (Buffer bound): from any state whose ring buffer holds fewer than
`cap = LengthLimit` entries, each public operation — buffering a value
through any write method, a block `writeAction`, `writeFreezeEof` — leaves
the buffer strictly below capacity again; `bufferValue` flushes one step
exactly when the push fills the buffer, and a flush step on a non-empty
buffer removes at least one buffered value. -/
theorem abbrevAssignWriter_buffer_bound (A : Assignment) (cap : Nat)
    (st : AWState) (v : IntType) (act : AWAction)
    (h : st.Buffer.length < cap) :
    (bufferValue A cap st v).Buffer.length < cap ∧
    (writeAction A st act).Buffer.length < cap ∧
    (writeFreezeEof A st).Buffer.length < cap ∧
    (st.Buffer = [] ∨
      (writeFromBuffer A st).Buffer.length < st.Buffer.length) := by
  have hcap : 0 < cap := Nat.lt_of_le_of_lt (Nat.zero_le _) h
  refine ⟨?_, ?_, ?_, ?_⟩
  · simp only [bufferValue]
    by_cases hc : (st.Buffer ++ [v]).length = cap
    · rw [if_pos hc]
      have hne : ({ st with Buffer := st.Buffer ++ [v] } : AWState).Buffer ≠ [] := by
        simp
      have hs := writeFromBuffer_shrinks A { st with Buffer := st.Buffer ++ [v] } hne
      rw [show ({ st with Buffer := st.Buffer ++ [v] } : AWState).Buffer =
        st.Buffer ++ [v] from rfl, hc] at hs
      exact hs
    · rw [if_neg hc]
      simp only [List.length_append, List.length_cons, List.length_nil] at hc ⊢
      omega
  · show (writeUntilBufferEmpty A st).Buffer.length < cap
    rw [writeUntilBufferEmpty_buffer]
    simpa using hcap
  · show (writeUntilBufferEmpty A st).Buffer.length < cap
    rw [writeUntilBufferEmpty_buffer]
    simpa using hcap
  · by_cases hb : st.Buffer = []
    · exact Or.inl hb
    · exact Or.inr (writeFromBuffer_shrinks A st hb)

/-- Witness for the buffer-bound theorem at a concrete input: capacity 2,
the empty assignment, the empty initial state, value 7, and the
`Block_enter` action. -/
theorem abbrevAssignWriter_buffer_bound_witness :
    initAWState.Buffer.length < 2 ∧
    ((bufferValue (fun _ => false) 2 initAWState 7).Buffer.length < 2 ∧
     (writeAction (fun _ => false) initAWState AWAction.blockEnter).Buffer.length < 2 ∧
     (writeFreezeEof (fun _ => false) initAWState).Buffer.length < 2 ∧
     (initAWState.Buffer = [] ∨
       (writeFromBuffer (fun _ => false) initAWState).Buffer.length <
         initAWState.Buffer.length)) :=
  ⟨by decide,
   abbrevAssignWriter_buffer_bound (fun _ => false) 2 initAWState 7
     AWAction.blockEnter (by decide)⟩

/-- C3 (code bug): `hasEnoughHeadroom` compares the current read byte
address against itself, so — short of `size_t` wrap-around — it is false
whenever the stream is not EOF-frozen, however much buffered input lies
beyond the read position; the spec's predicate is true as soon as 100
bytes are available.  At address 0 with 1000 buffered bytes the spec says
resume, the code suspends; the same at address 5000 with 6000 buffered
bytes; only the frozen case agrees. -/
theorem hasEnoughHeadroom_divergence :
    specHasEnoughHeadroom false 0 1000 = true ∧
    hasEnoughHeadroom false 0 = false ∧
    specHasEnoughHeadroom false 5000 6000 = true ∧
    hasEnoughHeadroom false 5000 = false ∧
    hasEnoughHeadroom true 0 = true := by
  decide

/-- C4 (code bug): with a byte read stream installed as reader and a byte
write stream as writer, `eval` on `Stream(Input, Byte)` returns 0 — the
missing `break` lets the output arm overwrite the input arm's result with
`isa<ByteReadStream>(Writer.get())` — and `eval` on `Stream(Output, Byte)`
also returns 0, because the test names `ByteReadStream` instead of
`ByteWriteStream`; the claim requires 1 in both cases. -/
theorem evalOpStream_divergence :
    isaByteReadStream StreamClassKind.byteReadStream = true ∧
    isaByteWriteStream StreamClassKind.byteWriteStream = true ∧
    evalOpStream StreamClassKind.byteReadStream StreamClassKind.byteWriteStream
      StreamKind.input StreamType.byte = some 0 ∧
    evalOpStream StreamClassKind.byteReadStream StreamClassKind.byteWriteStream
      StreamKind.output StreamType.byte = some 0 := by
  decide

/-- C5 counterexample: entering `Peek` with `LastReadValue = 7` while the
probed read yields 5, the register holds 5 — not its entry value 7 —
after the peek completes, refuting the save/restore part of the claim. -/
theorem opPeek_lastReadValue_counterexample :
    ¬ ((opPeekStep (fun p => (5, p + 1))
        { pos := 10, lastReadValue := 7 }).2.lastReadValue = 7) := by
  decide

/-- C5 as amended: for every probed expression, `Peek` returns the value
the nested read produces and leaves the read cursor at the exact position
it had on entry, but `LastReadValue` is not saved and restored — after the
peek it equals the peeked value. -/
theorem opPeek_frame_effect (probe : Nat → Nat × Nat) (st : RdState) :
    (opPeekStep probe st).1 = (probe st.pos).1 ∧
    (opPeekStep probe st).2.pos = st.pos ∧
    (opPeekStep probe st).2.lastReadValue = (probe st.pos).1 :=
  ⟨rfl, rfl, rfl⟩

/-- C6 (Opcode assembly): when a continuation is expected
(`NumOpcodes > 0`) and the computed selector bitsize `b` lies in
`[1, 63]`, the assembled `LastReadValue` is `(PrefixValue << b) | c` (the
shift in `uint64_t`, i.e. modulo `2 ^ 64`), where `c` is the value read by
the selector; a computed bitsize of 0, or of 64 and above, is fatal. -/
theorem readOpcode_assembly (sel : SelectorNode) (c p n : Nat)
    (hn : 0 < n) :
    (1 ≤ readOpcodeSelectorSize sel → readOpcodeSelectorSize sel ≤ 63 →
      readOpcodeAssemble sel c p n =
        some ((p <<< readOpcodeSelectorSize sel) % intTypeMod ||| c)) ∧
    (readOpcodeSelectorSize sel = 0 ∨ 64 ≤ readOpcodeSelectorSize sel →
      readOpcodeAssemble sel c p n = none) := by
  constructor
  · intro h1 h63
    simp only [readOpcodeAssemble, if_pos hn]
    rw [if_neg (by omega)]
    rw [Nat.lor_comm]
  · intro hbad
    simp only [readOpcodeAssemble, if_pos hn]
    rw [if_pos (by omega)]

/-- Witness for the opcode-assembly theorem at a concrete input: a
`Uint8NoArgs` selector (bitsize 8), continuation value 66, prefix 1, one
expected opcode. -/
theorem readOpcode_assembly_witness :
    0 < 1 ∧
    ((1 ≤ readOpcodeSelectorSize SelectorNode.uint8NoArgs →
        readOpcodeSelectorSize SelectorNode.uint8NoArgs ≤ 63 →
        readOpcodeAssemble SelectorNode.uint8NoArgs 66 1 1 =
          some ((1 <<< readOpcodeSelectorSize SelectorNode.uint8NoArgs) %
            intTypeMod ||| 66)) ∧
     (readOpcodeSelectorSize SelectorNode.uint8NoArgs = 0 ∨
        64 ≤ readOpcodeSelectorSize SelectorNode.uint8NoArgs →
        readOpcodeAssemble SelectorNode.uint8NoArgs 66 1 1 = none)) :=
  ⟨by decide, readOpcode_assembly SelectorNode.uint8NoArgs 66 1 1 (by decide)⟩

/-- C7 (code bug): with a non-null input reader that has recorded errors,
`IntCompressor::errorsFound()` returns false — the `Input == nullptr`
conjunct short-circuits `&&` — while the claim requires true; with a
non-null error-free reader it also returns false; on a null reader the
body dereferences the null pointer. -/
theorem errorsFound_divergence :
    specErrorsFound (some true) = true ∧
    errorsFound (some true) = some false ∧
    errorsFound (some false) = some false ∧
    errorsFound none = none := by
  decide

/-- C8 (code bug): `setMinimizeBlockSize` discards its argument — it is
the identity on the compressor's state for either argument value — so the
interpreter's `MinimizeBlockSize` flag keeps its constructor value
`false` and block back-patching stays on `writeFixedBlockSize` with no
`moveBlock`; had the flag reached `true`, a block of size 5 would be
back-patched with `writeVarintBlockSize` (1 byte against the 4-byte
reservation) followed by `moveBlock`, as the claim describes. -/
theorem setMinimizeBlockSize_divergence :
    (∀ (c : CompressorOptions) (v : Bool), setMinimizeBlockSize c v = c) ∧
    decompressBlockPatch interpreterMinimizeBlockSizeInit 5 =
      (BlockPatch.fixedPatch, false) ∧
    decompressBlockPatch true 5 = (BlockPatch.varintPatch, true) ∧
    decompressBlockPatch false 5 = (BlockPatch.fixedPatch, false) :=
  ⟨fun _ _ => rfl, by decide, by decide, by decide⟩

/-- C10: `readHeaderValue` succeeds — returning true and the stored value
— exactly when an unconsumed header entry exists at the current header
index and its recorded format equals the requested one; every failure
returns false with `Value = 0`; whenever an entry existed (match or
format mismatch) the header index advances past it, so a mismatched entry
is skipped by all subsequent calls; past the end the state is unchanged. -/
theorem readHeaderValue_spec (st : IntReaderHeaderState)
    (Format : IntTypeFormat) :
    ((readHeaderValue st Format).1 = true ↔
      st.HeaderIndex < st.header.length ∧
      (st.header.getD st.HeaderIndex (0, IntTypeFormat.Uint8)).2 = Format) ∧
    ((readHeaderValue st Format).1 = true →
      (readHeaderValue st Format).2.1 =
        (st.header.getD st.HeaderIndex (0, IntTypeFormat.Uint8)).1) ∧
    ((readHeaderValue st Format).1 = false →
      (readHeaderValue st Format).2.1 = 0) ∧
    (st.HeaderIndex < st.header.length →
      (readHeaderValue st Format).2.2.HeaderIndex = st.HeaderIndex + 1) ∧
    (st.header.length ≤ st.HeaderIndex →
      (readHeaderValue st Format).2.2 = st) := by
  by_cases h1 : st.HeaderIndex ≥ st.header.length
  · have heq : readHeaderValue st Format = (false, 0, st) := by
      unfold readHeaderValue
      rw [if_pos h1]
    rw [heq]
    refine ⟨?_, ?_, ?_, ?_, ?_⟩
    · constructor
      · intro hfalse
        simp at hfalse
      · rintro ⟨hlt, _⟩
        exact absurd hlt (by omega)
    · intro hfalse
      simp at hfalse
    · intro
      rfl
    · intro hlt
      exact absurd hlt (by omega)
    · intro
      rfl
  · have h1' : st.HeaderIndex < st.header.length := by omega
    by_cases h2 : (st.header.getD st.HeaderIndex (0, IntTypeFormat.Uint8)).2 = Format
    · have heq : readHeaderValue st Format =
          (true, (st.header.getD st.HeaderIndex (0, IntTypeFormat.Uint8)).1,
            { st with HeaderIndex := st.HeaderIndex + 1 }) := by
        unfold readHeaderValue
        rw [if_neg h1, if_neg (not_not_intro h2)]
      rw [heq]
      refine ⟨?_, ?_, ?_, ?_, ?_⟩
      · exact ⟨fun _ => ⟨h1', h2⟩, fun _ => rfl⟩
      · intro
        rfl
      · intro hfalse
        simp at hfalse
      · intro
        rfl
      · intro hle
        exact absurd hle (by omega)
    · have heq : readHeaderValue st Format =
          (false, 0, { st with HeaderIndex := st.HeaderIndex + 1 }) := by
        unfold readHeaderValue
        rw [if_neg h1, if_pos h2]
      rw [heq]
      refine ⟨?_, ?_, ?_, ?_, ?_⟩
      · constructor
        · intro hfalse
          simp at hfalse
        · rintro ⟨_, hfmt⟩
          exact absurd hfmt h2
      · intro hfalse
        simp at hfalse
      · intro
        rfl
      · intro
        rfl
      · intro hle
        exact absurd hle (by omega)

/-- Witness for the header-value theorem at a concrete input: a header
holding one `Uint32` entry with value 7, requested with format `Uint32`,
at header index 0. -/
theorem readHeaderValue_spec_witness :
    ((readHeaderValue { header := [(7, IntTypeFormat.Uint32)], HeaderIndex := 0 }
        IntTypeFormat.Uint32).1 = true ↔
      ({ header := [(7, IntTypeFormat.Uint32)], HeaderIndex := 0 } :
          IntReaderHeaderState).HeaderIndex <
        ({ header := [(7, IntTypeFormat.Uint32)], HeaderIndex := 0 } :
          IntReaderHeaderState).header.length ∧
      (({ header := [(7, IntTypeFormat.Uint32)], HeaderIndex := 0 } :
          IntReaderHeaderState).header.getD 0 (0, IntTypeFormat.Uint8)).2 =
        IntTypeFormat.Uint32) ∧
    ((readHeaderValue { header := [(7, IntTypeFormat.Uint32)], HeaderIndex := 0 }
        IntTypeFormat.Uint32).1 = true →
      (readHeaderValue { header := [(7, IntTypeFormat.Uint32)], HeaderIndex := 0 }
        IntTypeFormat.Uint32).2.1 =
        (({ header := [(7, IntTypeFormat.Uint32)], HeaderIndex := 0 } :
          IntReaderHeaderState).header.getD 0 (0, IntTypeFormat.Uint8)).1) ∧
    ((readHeaderValue { header := [(7, IntTypeFormat.Uint32)], HeaderIndex := 0 }
        IntTypeFormat.Uint32).1 = false →
      (readHeaderValue { header := [(7, IntTypeFormat.Uint32)], HeaderIndex := 0 }
        IntTypeFormat.Uint32).2.1 = 0) ∧
    (({ header := [(7, IntTypeFormat.Uint32)], HeaderIndex := 0 } :
        IntReaderHeaderState).HeaderIndex <
      ({ header := [(7, IntTypeFormat.Uint32)], HeaderIndex := 0 } :
        IntReaderHeaderState).header.length →
      (readHeaderValue { header := [(7, IntTypeFormat.Uint32)], HeaderIndex := 0 }
        IntTypeFormat.Uint32).2.2.HeaderIndex = 0 + 1) ∧
    (({ header := [(7, IntTypeFormat.Uint32)], HeaderIndex := 0 } :
        IntReaderHeaderState).header.length ≤
      ({ header := [(7, IntTypeFormat.Uint32)], HeaderIndex := 0 } :
        IntReaderHeaderState).HeaderIndex →
      (readHeaderValue { header := [(7, IntTypeFormat.Uint32)], HeaderIndex := 0 }
        IntTypeFormat.Uint32).2.2 =
        { header := [(7, IntTypeFormat.Uint32)], HeaderIndex := 0 }) :=
  readHeaderValue_spec
    { header := [(7, IntTypeFormat.Uint32)], HeaderIndex := 0 }
    IntTypeFormat.Uint32

end DecompProto
